import Mathlib

/-!
Verification of the MMTP/TLV demuxer (libavformat/mmtp.c).

The C file is shallowly embedded: bytes are `Nat`s (< 256 where it
matters), the bit reader (`GetBitContext` from get_bits.h, restricted
to the operations the demuxer uses) is a buffer plus a bit index, the
byte stream (`AVIOContext`) is a list of bytes plus a cursor and an
end-of-file flag, and every C function that returns an `int` error code
becomes a Lean function returning `Int` (plus its decoded outputs and
final cursor state, which in C are communicated through out-parameters
and side effects).  Negative `AVERROR` codes keep their concrete values.
-/

set_option maxRecDepth 8000

def AVERROR_INVALIDDATA : Int := -1094995529

def AVERROR_EOF : Int := -541478725

/-- MSB-first bit `pos` of a byte buffer; bytes past the end read as 0,
matching the zeroed `AV_INPUT_BUFFER_PADDING_SIZE` tail of `pkt_data`. -/
def getBit (buf : List Nat) (pos : Nat) : Nat :=
  (buf.getD (pos / 8) 0 >>> (7 - pos % 8)) % 2

/-- Big-endian (MSB-first) read of `n` bits starting at bit `pos`. -/
def readBits (buf : List Nat) (pos : Nat) : Nat → Nat
  | 0 => 0
  | n+1 => readBits buf pos n * 2 + getBit buf (pos + n)

/-- Model of get_bits.h `GetBitContext` as set up by `init_get_bits8`:
the backing buffer and the current bit position (`get_bits_count`). -/
structure GetBitContext where
  buffer : List Nat
  index : Nat
deriving DecidableEq, Repr

def init_get_bits8 (data : List Nat) : GetBitContext := ⟨data, 0⟩

def get_bits (gb : GetBitContext) (n : Nat) : Nat × GetBitContext :=
  (readBits gb.buffer gb.index n, ⟨gb.buffer, gb.index + n⟩)

def skip_bits (gb : GetBitContext) (n : Nat) : GetBitContext :=
  ⟨gb.buffer, gb.index + n⟩

def get_bits_count (gb : GetBitContext) : Nat := gb.index

/-- mmtp.c `struct TLVPacket`.  The framer sets `pkt_data_size` to the
declared 16-bit length and `pkt_data` to the bytes it read. -/
structure TLVPacket where
  pkt_type : Nat
  pkt_data_size : Nat
  pkt_data : List Nat
deriving DecidableEq, Repr

/-- mmtp.c `struct TLVSignallingPacket`: the common signalling header
fields, together with the bit reader positioned where
`tlv_parse_signalling_packet` left it (bit 64) when it dispatches. -/
structure TLVSignallingPacket where
  gb : GetBitContext
  table_id : Nat
  section_syntax_indicator : Nat
  section_length : Nat
  table_id_extension : Nat
  version_number : Nat
  current_next_indicator : Nat
  section_number : Nat
  last_section_number : Nat
deriving DecidableEq, Repr

/-- mmtp.c `tlv_parse_hcfb_packet` (lines 101-121).  Returns the C
return code together with the decoded `cid`, `sn` and
`cid_header_type` locals (which the C function logs). -/
def tlv_parse_hcfb_packet (pkt : TLVPacket) : Int × Nat × Nat × Nat :=
  if pkt.pkt_type ≠ 0x03 ∨ pkt.pkt_data_size < 3 then
    (AVERROR_INVALIDDATA, 0, 0, 0)
  else
    let gb := init_get_bits8 pkt.pkt_data
    let r1 := get_bits gb 12
    let r2 := get_bits r1.2 4
    let r3 := get_bits r2.2 8
    (0, r1.1, r2.1, r3.1)

/-- One step-bounded form of the `for (left_length =
tlv_stream_loop_length; left_length >= 6;)` TLV-stream loop of mmtp.c
`tlv_parse_nit_packet` (lines 175-199), with structural fuel so the
kernel can evaluate it.  Each iteration of the C loop consumes at
least 6 from `left_length`, so `left_length` itself bounds the
iteration count; the wrapper `nit_stream_loop` passes `left` as the
fuel, which keeps `left ≤ fuel` invariant, and under that invariant
the fuel-0 branch (only reachable with `left = 0 < 6`) coincides with
the loop-exit branch (the equivalence with the unbounded recurrence is
proved as `nit_stream_loop_eq`).  Returns the C return code, the final
bit-reader state and the final `left_length` at loop exit. -/
def nit_stream_loop_go : Nat → GetBitContext → Nat → Int × GetBitContext × Nat
  | 0, gb, left => (0, gb, left)
  | fuel+1, gb, left =>
    if 6 ≤ left then
      let r1 := get_bits gb 16
      let r2 := get_bits r1.2 16
      let gb3 := skip_bits r2.2 4
      let r4 := get_bits gb3 12
      let dlen := r4.1 % 1024
      if left < 6 + dlen then (AVERROR_INVALIDDATA, r4.2, left)
      else
        let gb5 := if dlen ≠ 0 then skip_bits r4.2 (dlen * 8) else r4.2
        nit_stream_loop_go fuel gb5 (left - (6 + dlen))
    else (0, gb, left)

/-- The TLV-stream loop of mmtp.c `tlv_parse_nit_packet` (lines
175-199), entered with `left_length = tlv_stream_loop_length`. -/
def nit_stream_loop (gb : GetBitContext) (left : Nat) : Int × GetBitContext × Nat :=
  nit_stream_loop_go left gb left

/-- mmtp.c `tlv_parse_nit_packet` (lines 123-202).  Returns the C
return code and the final bit-reader state. -/
def tlv_parse_nit_packet (pkt : TLVSignallingPacket) : Int × GetBitContext :=
  let sl := pkt.section_length % 1024
  if pkt.section_syntax_indicator = 0 ∨ 1021 < sl ∨ sl < 13 then
    (AVERROR_INVALIDDATA, pkt.gb)
  else
    let gb1 := skip_bits pkt.gb 4
    let r2 := get_bits gb1 12
    let ndl := r2.1 % 1024
    if sl < 13 ∨ sl - 13 < ndl then (AVERROR_INVALIDDATA, r2.2)
    else
      let mrl := 13 + ndl
      let gb3 := if ndl ≠ 0 then skip_bits r2.2 (ndl * 8) else r2.2
      let gb4 := skip_bits gb3 4
      let r5 := get_bits gb4 12
      let tsll := r5.1 % 1024
      if sl < mrl ∨ sl - mrl < tsll then (AVERROR_INVALIDDATA, r5.2)
      else
        let r := nit_stream_loop r5.2 tsll
        (r.1, r.2.1)

/-- Byte offsets dereferenced by the ipv4 branch of mmtp.c
`tlv_parse_amt_packet` (lines 286-291), `o` being
`buff_location - gb->buffer`: `AV_COPY32` of the source address
(`o..o+3`), the source mask (`o+4`), `AV_COPY32` of the destination
address (`o+5..o+8`), and the destination mask re-read of
`buff_location[0]` (`o+5`, the pointer not having been advanced). -/
def amtReadsV4 (o : Nat) : List Nat :=
  (List.range 4).map (o + ·) ++ [o + 4] ++ (List.range 4).map (fun j => o + 5 + j) ++ [o + 5]

/-- Byte offsets dereferenced by the ipv6 branch of mmtp.c
`tlv_parse_amt_packet` (lines 256-262): 16-byte source address, source
mask, 16-byte destination address, destination mask. -/
def amtReadsV6 (o : Nat) : List Nat :=
  (List.range 16).map (o + ·) ++ [o + 16] ++ (List.range 16).map (fun j => o + 17 + j) ++ [o + 33]

/-- The `for (i = 0; i < num_of_service_id; i++)` service loop of
mmtp.c `tlv_parse_amt_packet` (lines 223-304).  Returns the C return
code, the final bit-reader state, and the list of raw byte offsets the
address-record decode dereferenced in the backing buffer. -/
def amt_service_loop (sl : Nat) : Nat → GetBitContext → Nat → Int × GetBitContext × List Nat
  | 0, gb, _ => (0, gb, [])
  | k+1, gb, mrl =>
    let mrl1 := mrl + 4
    if sl < mrl1 then (AVERROR_INVALIDDATA, gb, [])
    else
      let r1 := get_bits gb 16
      let r2 := get_bits r1.2 1
      let gb3 := skip_bits r2.2 5
      let r4 := get_bits gb3 10
      let sll := r4.1
      let mrl2 := mrl1 + sll
      let mapl := if r2.1 ≠ 0 then 34 else 10
      if sl < mrl2 ∨ sll < mapl then (AVERROR_INVALIDDATA, r4.2, [])
      else
        let o := get_bits_count r4.2 / 8
        let reads := if r2.1 ≠ 0 then amtReadsV6 o else amtReadsV4 o
        let gb5 := skip_bits r4.2 (sll * 8)
        let r := amt_service_loop sl k gb5 mrl2
        (r.1, r.2.1, reads ++ r.2.2)

/-- mmtp.c `tlv_parse_amt_packet` (lines 204-307).  Returns the C
return code, the final bit-reader state, and the accumulated raw byte
offsets read by the address-record decodes. -/
def tlv_parse_amt_packet (pkt : TLVSignallingPacket) : Int × GetBitContext × List Nat :=
  if pkt.section_syntax_indicator = 0 ∨ pkt.section_length < 11 then
    (AVERROR_INVALIDDATA, pkt.gb, [])
  else
    let r1 := get_bits pkt.gb 10
    let gb2 := skip_bits r1.2 6
    amt_service_loop pkt.section_length r1.1 gb2 11

/-- mmtp.c `tlv_parse_extended_packet` (lines 309-330): dispatch on
`table_id_extension`; only `TLV_TABLE_EXTENDED_AMT = 0x0000` has a
parser, anything else is `AVERROR_INVALIDDATA`. -/
def tlv_parse_extended_packet (pkt : TLVSignallingPacket) : Int :=
  if pkt.table_id_extension = 0 then (tlv_parse_amt_packet pkt).1
  else AVERROR_INVALIDDATA

/-- mmtp.c `tlv_parse_signalling_packet` (lines 332-404).  Decodes the
common section header, validates `section_length` against the packet
size, and dispatches by `table_id` (0x40/0x41 NIT, 0xFE extended).
`init_get_bits8` cannot fail here since `pkt_data_size` is a u16. -/
def tlv_parse_signalling_packet (pkt : TLVPacket) : Int :=
  if pkt.pkt_type ≠ 0xFE ∨ pkt.pkt_data_size < 8 + 4 then AVERROR_INVALIDDATA
  else
    let gb := init_get_bits8 pkt.pkt_data
    let r1 := get_bits gb 8
    let table_id := r1.1
    let r2 := get_bits r1.2 1
    let gb3 := skip_bits r2.2 3
    let r4 := get_bits gb3 12
    let section_length := r4.1
    if pkt.pkt_data_size - 3 < section_length then AVERROR_INVALIDDATA
    else if table_id = 0x40 ∨ table_id = 0x41 ∨ table_id = 0xFE then
      let r5 := get_bits r4.2 16
      let gb6 := skip_bits r5.2 2
      let r7 := get_bits gb6 5
      let r8 := get_bits r7.2 1
      let r9 := get_bits r8.2 8
      let r10 := get_bits r9.2 8
      let sig : TLVSignallingPacket :=
        ⟨r10.2, table_id, r2.1, section_length, r5.1, r7.1, r8.1, r9.1, r10.1⟩
      if table_id = 0xFE then tlv_parse_extended_packet sig
      else (tlv_parse_nit_packet sig).1
    else AVERROR_INVALIDDATA

/-- Byte-stream model of `AVIOContext`: the underlying bytes, the
cursor, and the sticky `eof_reached` flag that `avio_feof` reports. -/
structure AVIOContext where
  data : List Nat
  pos : Nat
  eof_reached : Bool
deriving DecidableEq, Repr

/-- `avio_r8`: read one byte, advancing the cursor; at end-of-data it
returns 0 and sets `eof_reached`, leaving the cursor in place. -/
def avio_r8 (s : AVIOContext) : Nat × AVIOContext :=
  if s.pos < s.data.length then (s.data.getD s.pos 0, ⟨s.data, s.pos + 1, s.eof_reached⟩)
  else (0, ⟨s.data, s.pos, true⟩)

def avio_feof (s : AVIOContext) : Bool := s.eof_reached

/-- `avio_seek(pb, -1, SEEK_CUR)` as used by `tlv_resync` right after
a successful one-byte read. -/
def avio_seek_back1 (s : AVIOContext) : AVIOContext := ⟨s.data, s.pos - 1, s.eof_reached⟩

/-- `avio_read`: read up to `n` bytes; returns the bytes, the count
actually read, and the advanced stream (short reads set `eof_reached`). -/
def avio_read (s : AVIOContext) (n : Nat) : List Nat × Nat × AVIOContext :=
  let bytes := (s.data.drop s.pos).take n
  (bytes, bytes.length, ⟨s.data, s.pos + bytes.length, if bytes.length < n then true else s.eof_reached⟩)

def avio_tell (s : AVIOContext) : Int := (s.pos : Int)

/-- `avio_skip`: relative seek forward by `n`, clamped at end-of-data;
returns the resulting position (never negative in this model). -/
def avio_skip (s : AVIOContext) (n : Nat) : Int × AVIOContext :=
  let np := min (s.pos + n) s.data.length
  ((np : Int), ⟨s.data, np, s.eof_reached⟩)

/-- The scan loop of mmtp.c `tlv_resync` (lines 406-425), with the
`for (i = 0; i < resync_limit; i++)` budget as structural fuel: read a
byte, fail `AVERROR_EOF` at end-of-stream, rewind and succeed on
`TLV_SYNC_BYTE` (0x7F), and fail `AVERROR_INVALIDDATA` once the budget
is exhausted. -/
def tlv_resync_loop : Nat → AVIOContext → Int × AVIOContext
  | 0, s => (AVERROR_INVALIDDATA, s)
  | n+1, s =>
    let r := avio_r8 s
    if avio_feof r.2 then (AVERROR_EOF, r.2)
    else if r.1 = 0x7F then (0, avio_seek_back1 r.2)
    else tlv_resync_loop n r.2

/-- mmtp.c `tlv_resync` with its `resync_limit = 10*1024*1024`. -/
def tlv_resync (s : AVIOContext) : Int × AVIOContext :=
  tlv_resync_loop (10 * 1024 * 1024) s

/-- mmtp.c `tlv_read_packet` (lines 427-524): read the 4-byte TLV
header, validate the sync byte, dispatch on the packet type
(0x03 HCfB and 0xFE signalling have parsers; 0x01/0x02/0xFF are
recognized but skipped; anything else is invalid), then either skip
`packet_length` bytes (verifying the position advanced exactly) or
materialize the payload and run the sub-parser, whose return code
becomes the framer's result.  Model note: short reads/skips return
non-negative counts here, so the C `len < 0 ? len : AVERROR_EOF`
arms collapse to `AVERROR_EOF`; allocation failure is not modelled. -/
def tlv_read_packet (s : AVIOContext) : Int × AVIOContext :=
  let h := avio_read s 4
  if h.2.1 ≠ 4 then (AVERROR_EOF, h.2.2)
  else if h.1.getD 0 0 ≠ 0x7F then (AVERROR_INVALIDDATA, h.2.2)
  else
    let packet_type := h.1.getD 1 0
    if packet_type = 0x03 ∨ packet_type = 0xFE ∨
       packet_type = 0x01 ∨ packet_type = 0x02 ∨ packet_type = 0xFF then
      let packet_length := h.1.getD 2 0 * 256 + h.1.getD 3 0
      if packet_length = 0 then (0, h.2.2)
      else if packet_type = 0x01 ∨ packet_type = 0x02 ∨ packet_type = 0xFF then
        let curr_pos := avio_tell h.2.2
        let sk := avio_skip h.2.2 packet_length
        if sk.1 ≠ (packet_length : Int) + curr_pos then (AVERROR_EOF, sk.2)
        else (0, sk.2)
      else
        let rd := avio_read h.2.2 packet_length
        if rd.2.1 ≠ packet_length then (AVERROR_EOF, rd.2.2)
        else
          let pkt : TLVPacket := ⟨packet_type, packet_length, rd.1⟩
          let ret := if packet_type = 0x03 then (tlv_parse_hcfb_packet pkt).1
                     else tlv_parse_signalling_packet pkt
          (ret, rd.2.2)
    else (AVERROR_INVALIDDATA, h.2.2)

/-- The `do { resync; read_packet; } while (ret >= 0)` body of mmtp.c
`mmtp_tlv_read_header` (lines 548-562).  Any negative result from
either call is returned immediately; otherwise the loop repeats, so
the C function's trailing `return 0` corresponds exactly to the fuel
running out in this model. -/
def read_header_loop : Nat → AVIOContext → Int × AVIOContext
  | 0, s => (0, s)
  | n+1, s =>
    let r1 := tlv_resync s
    if r1.1 < 0 then r1
    else
      let r2 := tlv_read_packet r1.2
      if r2.1 < 0 then r2
      else read_header_loop n r2.2

/-- mmtp.c `mmtp_tlv_read_header`, fuel-bounded. -/
def mmtp_tlv_read_header (fuel : Nat) (s : AVIOContext) : Int × AVIOContext :=
  read_header_loop fuel s

/-- mmtp.c `mmtp_tlv_read_packet` (lines 564-575): one resync followed
by one framer invocation, each error returned immediately. -/
def mmtp_tlv_read_packet (s : AVIOContext) : Int × AVIOContext :=
  let r1 := tlv_resync s
  if r1.1 < 0 then r1
  else
    let r2 := tlv_read_packet r1.2
    if r2.1 < 0 then r2
    else (0, r2.2)

/-- One entry of the NIT TLV-stream loop as synthesized for the
accounting property: the two id fields and an opaque descriptor
byte range. -/
structure NITStreamEntry where
  stream_id : Nat
  original_network_id : Nat
  descriptors : List Nat
deriving DecidableEq, Repr

/-- Wire encoding of a TLV-stream-loop entry whose 12-bit
`descriptors_length` field carries `d` (4 reserved zero bits + 12-bit
big-endian length, then the descriptor bytes). -/
def encodeEntryWithLen (e : NITStreamEntry) (d : Nat) : List Nat :=
  e.stream_id / 256 :: e.stream_id % 256 ::
  e.original_network_id / 256 :: e.original_network_id % 256 ::
  d / 256 :: d % 256 :: e.descriptors

/-- Consistent wire encoding: the length field matches the
descriptor range. -/
def encodeEntry (e : NITStreamEntry) : List Nat :=
  encodeEntryWithLen e e.descriptors.length

def encodeEntries : List NITStreamEntry → List Nat
  | [] => []
  | e :: es => encodeEntry e ++ encodeEntries es

/-- Bytes one loop entry occupies: 6 fixed bytes plus its
descriptors. -/
def entrySize (e : NITStreamEntry) : Nat := 6 + e.descriptors.length

def sumSize (es : List NITStreamEntry) : Nat := (es.map entrySize).sum

/-- Field bounds under which an entry is wire-encodable: 16-bit ids
and a 10-bit descriptors length. -/
def entryValid (e : NITStreamEntry) : Prop :=
  e.stream_id < 65536 ∧ e.original_network_id < 65536 ∧ e.descriptors.length < 1024

theorem readBits_split (buf : List Nat) (pos m : Nat) :
    ∀ n, readBits buf pos (m + n) = readBits buf pos m * 2 ^ n + readBits buf (pos + m) n := by
  intro n
  induction n with
  | zero => simp [readBits]
  | succ n ih =>
    have h1 : m + (n + 1) = (m + n) + 1 := by omega
    rw [h1]
    show readBits buf pos (m + n) * 2 + getBit buf (pos + (m + n)) = _
    rw [ih]
    show _ = _ * 2 ^ (n + 1) + (readBits buf (pos + m) n * 2 + getBit buf (pos + m + n))
    have h2 : pos + (m + n) = pos + m + n := by omega
    rw [h2, pow_succ]
    ring

theorem getBit_append_right (xs ys : List Nat) (p : Nat) :
    getBit (xs ++ ys) (8 * xs.length + p) = getBit ys p := by
  unfold getBit
  have h1 : (8 * xs.length + p) / 8 = xs.length + p / 8 := by omega
  have h2 : (8 * xs.length + p) % 8 = p % 8 := by omega
  rw [h1, h2, List.getD_append_right xs ys _ _ (by omega)]
  have h3 : xs.length + p / 8 - xs.length = p / 8 := by omega
  rw [h3]

theorem readBits_append_right (xs ys : List Nat) (p : Nat) :
    ∀ n, readBits (xs ++ ys) (8 * xs.length + p) n = readBits ys p n := by
  intro n
  induction n with
  | zero => simp [readBits]
  | succ n ih =>
    show readBits (xs ++ ys) (8 * xs.length + p) n * 2 + getBit (xs ++ ys) (8 * xs.length + p + n)
        = readBits ys p n * 2 + getBit ys (p + n)
    rw [ih]
    have h : 8 * xs.length + p + n = 8 * xs.length + (p + n) := by omega
    rw [h, getBit_append_right]

theorem getBit_append_left (xs ys : List Nat) (p : Nat) (h : p < 8 * xs.length) :
    getBit (xs ++ ys) p = getBit xs p := by
  unfold getBit
  rw [List.getD_append xs ys _ _ (by omega)]

theorem readBits_append_left (xs ys : List Nat) (p : Nat) :
    ∀ n, p + n ≤ 8 * xs.length → readBits (xs ++ ys) p n = readBits xs p n := by
  intro n
  induction n with
  | zero => simp [readBits]
  | succ n ih =>
    intro hle
    show readBits (xs ++ ys) p n * 2 + getBit (xs ++ ys) (p + n)
        = readBits xs p n * 2 + getBit xs (p + n)
    rw [ih (by omega), getBit_append_left xs ys (p + n) (by omega)]

theorem readBits_single8 : ∀ b, b < 256 → readBits [b] 0 8 = b := by decide

theorem readBits_single4lo : ∀ b, b < 256 → readBits [b] 4 4 = b % 16 := by decide

theorem readBits_single4hi : ∀ b, b < 256 → readBits [b] 0 4 = b / 16 := by decide

theorem readBits_cons8 (b : Nat) (rest : List Nat) (hb : b < 256) :
    readBits (b :: rest) 0 8 = b := by
  have h := readBits_append_left [b] rest 0 8 (by simp)
  simpa [readBits_single8 b hb] using h

theorem readBits_cons_shift (b : Nat) (rest : List Nat) (p n : Nat) :
    readBits (b :: rest) (8 + p) n = readBits rest p n := by
  have h := readBits_append_right [b] rest p n
  simpa using h

theorem readBits_cons4lo (b : Nat) (rest : List Nat) (hb : b < 256) :
    readBits (b :: rest) 4 4 = b % 16 := by
  have h := readBits_append_left [b] rest 4 4 (by simp)
  simpa [readBits_single4lo b hb] using h

theorem readBits_cons4hi (b : Nat) (rest : List Nat) (hb : b < 256) :
    readBits (b :: rest) 0 4 = b / 16 := by
  have h := readBits_append_left [b] rest 0 4 (by simp)
  simpa [readBits_single4hi b hb] using h

theorem readBits_cons16 (b0 b1 : Nat) (rest : List Nat) (h0 : b0 < 256) (h1 : b1 < 256) :
    readBits (b0 :: b1 :: rest) 0 16 = b0 * 256 + b1 := by
  have h := readBits_split (b0 :: b1 :: rest) 0 8 8
  simp only [show (8:Nat) + 8 = 16 from rfl] at h
  rw [h, readBits_cons8 b0 _ h0]
  show b0 * 2 ^ 8 + readBits (b0 :: b1 :: rest) (8 + 0) 8 = _
  rw [readBits_cons_shift, readBits_cons8 b1 rest h1]
  norm_num

theorem readBits_cons12at4 (b0 b1 : Nat) (rest : List Nat) (h0 : b0 < 256) (h1 : b1 < 256) :
    readBits (b0 :: b1 :: rest) 4 12 = b0 % 16 * 256 + b1 := by
  have h := readBits_split (b0 :: b1 :: rest) 4 4 8
  simp only [show (4:Nat) + 8 = 12 from rfl] at h
  rw [h, readBits_cons4lo b0 _ h0]
  show b0 % 16 * 2 ^ 8 + readBits (b0 :: b1 :: rest) (8 + 0) 8 = _
  rw [readBits_cons_shift, readBits_cons8 b1 rest h1]
  norm_num

theorem readBits_cons12at0 (b0 b1 : Nat) (rest : List Nat) (h0 : b0 < 256) (h1 : b1 < 256) :
    readBits (b0 :: b1 :: rest) 0 12 = b0 * 16 + b1 / 16 := by
  have h := readBits_split (b0 :: b1 :: rest) 0 8 4
  simp only [show (8:Nat) + 4 = 12 from rfl] at h
  rw [h, readBits_cons8 b0 _ h0]
  show b0 * 2 ^ 4 + readBits (b0 :: b1 :: rest) (8 + 0) 4 = _
  rw [readBits_cons_shift, readBits_cons4hi b1 rest h1]
  norm_num

theorem readBits_cons4at12 (b0 b1 : Nat) (rest : List Nat) (h1 : b1 < 256) :
    readBits (b0 :: b1 :: rest) 12 4 = b1 % 16 := by
  show readBits (b0 :: b1 :: rest) (8 + 4) 4 = b1 % 16
  rw [readBits_cons_shift, readBits_cons4lo b1 rest h1]
/-- C1: for every signalling TLV payload of at least 12 bytes whose
encoded 12-bit `section_length` (bits 12..23 of the payload) exceeds
the payload length minus 3, `tlv_parse_signalling_packet` returns
`AVERROR_INVALIDDATA`; since the table-id dispatch sits below this
early return, no such `section_length` ever reaches a sub-parser. -/
theorem c1_section_length_bound (data : List Nat)
    (h12 : 12 ≤ data.length)
    (hover : data.length - 3 < readBits data 12 12) :
    tlv_parse_signalling_packet ⟨0xFE, data.length, data⟩ = AVERROR_INVALIDDATA := by
  unfold tlv_parse_signalling_packet
  split
  · rfl
  · simp only [init_get_bits8, get_bits, skip_bits]
    rw [if_pos (by simpa using hover)]

/-- C1 witness: a 12-byte signalling payload declaring
`section_length = 4095 > 12 - 3` is rejected. -/
theorem c1_section_length_bound_witness :
    tlv_parse_signalling_packet ⟨0xFE, 12, [0x00, 0x0F, 0xFF, 0, 0, 0, 0, 0, 0, 0, 0, 0]⟩
      = AVERROR_INVALIDDATA :=
  c1_section_length_bound [0x00, 0x0F, 0xFF, 0, 0, 0, 0, 0, 0, 0, 0, 0] (by decide) (by decide)

theorem readBits_cons8at16 (b0 b1 b2 : Nat) (rest : List Nat) (h2 : b2 < 256) :
    readBits (b0 :: b1 :: b2 :: rest) 16 8 = b2 := by
  show readBits (b0 :: b1 :: b2 :: rest) (8 + 8) 8 = b2
  rw [readBits_cons_shift]
  show readBits (b1 :: b2 :: rest) (8 + 0) 8 = b2
  rw [readBits_cons_shift, readBits_cons8 b2 rest h2]

/-- C8: for every HCfB payload of at least 3 bytes the parser succeeds
and decodes the context id as the high 12 bits of the big-endian
16-bit value of the first two bytes, the sequence number as its low 4
bits and the context header type as the third byte; the payload
`[0x12, 0x34, 0x56]` decodes to `(291, 4, 0x56)`; and every payload
shorter than 3 bytes fails with `AVERROR_INVALIDDATA`. -/
theorem c8_hcfb_decode :
    (∀ b0 b1 b2 rest, b0 < 256 → b1 < 256 → b2 < 256 →
      tlv_parse_hcfb_packet ⟨0x03, (b0 :: b1 :: b2 :: rest).length, b0 :: b1 :: b2 :: rest⟩
        = (0, (b0 * 256 + b1) / 16, (b0 * 256 + b1) % 16, b2)) ∧
    tlv_parse_hcfb_packet ⟨0x03, 3, [0x12, 0x34, 0x56]⟩ = (0, 291, 4, 0x56) ∧
    (∀ data : List Nat, data.length < 3 →
      (tlv_parse_hcfb_packet ⟨0x03, data.length, data⟩).1 = AVERROR_INVALIDDATA) := by
  refine ⟨?_, by decide, ?_⟩
  · intro b0 b1 b2 rest h0 h1 h2
    unfold tlv_parse_hcfb_packet
    rw [if_neg (by simp)]
    simp only [init_get_bits8, get_bits, skip_bits]
    rw [readBits_cons12at0 _ _ _ h0 h1, readBits_cons4at12 _ _ _ h1,
        readBits_cons8at16 _ _ _ _ h2]
    have e1 : b0 * 16 + b1 / 16 = (b0 * 256 + b1) / 16 := by omega
    have e2 : b1 % 16 = (b0 * 256 + b1) % 16 := by omega
    rw [e1, e2]
  · intro data hlt
    unfold tlv_parse_hcfb_packet
    rw [if_pos (Or.inr hlt)]

/-- C8 witness: the general decode applied at `[0x12, 0x34, 0x99]` and
the too-short failure applied at the empty payload. -/
theorem c8_hcfb_decode_witness :
    tlv_parse_hcfb_packet ⟨0x03, 3, [0x12, 0x34, 0x99]⟩
      = (0, (0x12 * 256 + 0x34) / 16, (0x12 * 256 + 0x34) % 16, 0x99) ∧
    (tlv_parse_hcfb_packet ⟨0x03, 0, []⟩).1 = AVERROR_INVALIDDATA :=
  ⟨c8_hcfb_decode.1 0x12 0x34 0x99 [] (by decide) (by decide) (by decide),
   c8_hcfb_decode.2.2 [] (by decide)⟩

/-- C9: with `section_syntax_indicator = 0` both table parsers bail
out with `AVERROR_INVALIDDATA` unconditionally — regardless of the
table id and of every length field — so a syntax indicator of 1 is a
precondition of both `tlv_parse_nit_packet` and
`tlv_parse_amt_packet`. -/
theorem c9_syntax_indicator_required (pkt : TLVSignallingPacket)
    (h : pkt.section_syntax_indicator = 0) :
    (tlv_parse_nit_packet pkt).1 = AVERROR_INVALIDDATA ∧
    (tlv_parse_amt_packet pkt).1 = AVERROR_INVALIDDATA := by
  constructor
  · unfold tlv_parse_nit_packet
    rw [if_pos (Or.inl h)]
  · unfold tlv_parse_amt_packet
    rw [if_pos (Or.inl h)]

/-- C9 witness: a concrete section with the syntax indicator clear and
every other field well in bounds is rejected by both parsers. -/
theorem c9_syntax_indicator_required_witness :
    (tlv_parse_nit_packet ⟨⟨List.replicate 40 0, 64⟩, 0x40, 0, 20, 0, 0, 1, 0, 0⟩).1
        = AVERROR_INVALIDDATA ∧
    (tlv_parse_amt_packet ⟨⟨List.replicate 40 0, 64⟩, 0x40, 0, 20, 0, 0, 1, 0, 0⟩).1
        = AVERROR_INVALIDDATA :=
  c9_syntax_indicator_required ⟨⟨List.replicate 40 0, 64⟩, 0x40, 0, 20, 0, 0, 1, 0, 0⟩ rfl

/-- C5 counterexample: the claim says no NIT section with declared
`section_length` above 1021 is ever parsed successfully, but
`tlv_parse_nit_packet` masks `section_length` with `0x3ff` before the
`> 1021` check.  This signalling packet declares the 12-bit
`section_length` 1037 (> 1021, masked to 13) for table id 0x40 and is
dispatched to the NIT parser, which parses it successfully (returns 0). -/
theorem c5_counterexample :
    readBits ([0x40, 0x84, 0x0D] ++ List.replicate 1037 0) 12 12 = 1037 ∧
    1021 < 1037 ∧
    tlv_parse_signalling_packet
      ⟨0xFE, 1040, [0x40, 0x84, 0x0D] ++ List.replicate 1037 0⟩ = 0 := by
  refine ⟨by decide, by decide, ?_⟩
  decide

/-- C5 amended: the NIT parser first masks the declared
`section_length` to its low 10 bits; it rejects a section (with
`AVERROR_INVALIDDATA`) whenever that masked value exceeds 1021, while
declared values above 1021 whose low 10 bits are within bounds can
parse successfully. -/
theorem c5_nit_masked_length_bound (pkt : TLVSignallingPacket)
    (h : 1021 < pkt.section_length % 1024) :
    (tlv_parse_nit_packet pkt).1 = AVERROR_INVALIDDATA := by
  unfold tlv_parse_nit_packet
  rw [if_pos (Or.inr (Or.inl h))]

/-- C5 amended witness: a dispatched section whose masked length is
1023 is rejected by the NIT parser. -/
theorem c5_nit_masked_length_bound_witness :
    (tlv_parse_nit_packet ⟨⟨[], 64⟩, 0x40, 1, 1023, 0, 0, 1, 0, 0⟩).1
        = AVERROR_INVALIDDATA :=
  c5_nit_masked_length_bound ⟨⟨[], 64⟩, 0x40, 1, 1023, 0, 0, 1, 0, 0⟩ (by decide)

theorem nit_stream_loop_go_congr :
    ∀ fuel1 fuel2 gb left, left ≤ fuel1 → left ≤ fuel2 →
      nit_stream_loop_go fuel1 gb left = nit_stream_loop_go fuel2 gb left := by
  intro fuel1
  induction fuel1 with
  | zero =>
    intro fuel2 gb left h1 h2
    have hl : left = 0 := by omega
    subst hl
    cases fuel2 with
    | zero => rfl
    | succ g => simp [nit_stream_loop_go]
  | succ f ih =>
    intro fuel2 gb left h1 h2
    cases fuel2 with
    | zero =>
      have hl : left = 0 := by omega
      subst hl
      simp [nit_stream_loop_go]
    | succ g =>
      simp only [nit_stream_loop_go]
      split
      next h6 =>
        split
        next => rfl
        next hov => exact ih g _ _ (by omega) (by omega)
      next h6 => rfl

theorem nit_stream_loop_exit (gb : GetBitContext) (left : Nat) (h : left < 6) :
    nit_stream_loop gb left = (0, gb, left) := by
  cases left with
  | zero => rfl
  | succ f =>
    show nit_stream_loop_go (f + 1) gb (f + 1) = _
    simp only [nit_stream_loop_go]
    rw [if_neg (by omega)]

theorem nit_stream_loop_step (gb : GetBitContext) (left : Nat) (h6 : 6 ≤ left) :
    nit_stream_loop gb left =
      (let dlen := readBits gb.buffer (gb.index + 36) 12 % 1024
       if left < 6 + dlen then
         (AVERROR_INVALIDDATA, (⟨gb.buffer, gb.index + 48⟩ : GetBitContext), left)
       else
         nit_stream_loop ⟨gb.buffer, gb.index + 48 + dlen * 8⟩ (left - (6 + dlen))) := by
  obtain ⟨f, rfl⟩ : ∃ f, left = f + 1 := ⟨left - 1, by omega⟩
  show nit_stream_loop_go (f + 1) gb (f + 1) = _
  simp only [nit_stream_loop_go, get_bits, skip_bits, if_pos h6]
  have e1 : gb.index + 16 + 16 + 4 = gb.index + 36 := by omega
  have e2 : gb.index + 16 + 16 + 4 + 12 = gb.index + 48 := by omega
  rw [e1, e2]
  split
  next hov => rfl
  next hov =>
    have e3 : (if readBits gb.buffer (gb.index + 36) 12 % 1024 ≠ 0 then
        (⟨gb.buffer, gb.index + 48 + readBits gb.buffer (gb.index + 36) 12 % 1024 * 8⟩ :
          GetBitContext)
      else (⟨gb.buffer, gb.index + 48⟩ : GetBitContext))
        = (⟨gb.buffer, gb.index + 48 + readBits gb.buffer (gb.index + 36) 12 % 1024 * 8⟩ :
            GetBitContext) := by
      split
      next => rfl
      next hz =>
        simp only [ne_eq, Decidable.not_not] at hz
        rw [hz]
    rw [e3]
    exact nit_stream_loop_go_congr f _ _ _ (by omega) (by omega)

theorem length_encodeEntryWithLen (e : NITStreamEntry) (d : Nat) :
    (encodeEntryWithLen e d).length = 6 + e.descriptors.length := by
  simp [encodeEntryWithLen]
  omega

theorem sumSize_cons (e : NITStreamEntry) (es : List NITStreamEntry) :
    sumSize (e :: es) = 6 + e.descriptors.length + sumSize es := by
  simp [sumSize, entrySize]

theorem length_encodeEntries (es : List NITStreamEntry) :
    (encodeEntries es).length = sumSize es := by
  induction es with
  | nil => simp [encodeEntries, sumSize]
  | cons e es ih =>
    simp [encodeEntries, encodeEntry, length_encodeEntryWithLen, ih, sumSize_cons]

theorem readBits_entry_dlen (pre tail : List Nat) (e : NITStreamEntry) (d : Nat)
    (hd : d < 1024) :
    readBits (pre ++ (encodeEntryWithLen e d ++ tail)) (8 * pre.length + 36) 12 = d := by
  rw [readBits_append_right]
  show readBits (encodeEntryWithLen e d ++ tail) 36 12 = d
  simp only [encodeEntryWithLen, List.cons_append]
  show readBits _ (8 + 28) 12 = d
  rw [readBits_cons_shift]
  show readBits _ (8 + 20) 12 = d
  rw [readBits_cons_shift]
  show readBits _ (8 + 12) 12 = d
  rw [readBits_cons_shift]
  show readBits _ (8 + 4) 12 = d
  rw [readBits_cons_shift]
  rw [readBits_cons12at4 _ _ _ (by omega) (by omega)]
  omega

theorem nit_stream_loop_entries (es : List NITStreamEntry) :
    ∀ pre tail extra, (∀ e ∈ es, entryValid e) →
      nit_stream_loop ⟨pre ++ (encodeEntries es ++ tail), 8 * pre.length⟩ (sumSize es + extra)
        = nit_stream_loop ⟨pre ++ (encodeEntries es ++ tail), 8 * (pre.length + sumSize es)⟩
            extra := by
  induction es with
  | nil =>
    intro pre tail extra hv
    simp [encodeEntries, sumSize]
  | cons e es ih =>
    intro pre tail extra hv
    have hve : entryValid e := hv e (by simp)
    have hd : e.descriptors.length < 1024 := hve.2.2
    have hB : encodeEntries (e :: es) ++ tail
        = encodeEntryWithLen e e.descriptors.length ++ (encodeEntries es ++ tail) := by
      simp [encodeEntries, encodeEntry, List.append_assoc]
    rw [hB, sumSize_cons]
    rw [nit_stream_loop_step _ _ (by omega)]
    dsimp only
    rw [readBits_entry_dlen pre (encodeEntries es ++ tail) e e.descriptors.length hd,
        Nat.mod_eq_of_lt hd]
    rw [if_neg (by omega)]
    have harg : 6 + e.descriptors.length + sumSize es + extra - (6 + e.descriptors.length)
        = sumSize es + extra := by omega
    rw [harg]
    have hidx : 8 * pre.length + 48 + e.descriptors.length * 8
        = 8 * (pre ++ encodeEntryWithLen e e.descriptors.length).length := by
      rw [List.length_append, length_encodeEntryWithLen]
      omega
    rw [hidx]
    have hassoc : pre ++ (encodeEntryWithLen e e.descriptors.length ++ (encodeEntries es ++ tail))
        = (pre ++ encodeEntryWithLen e e.descriptors.length) ++ (encodeEntries es ++ tail) :=
      (List.append_assoc _ _ _).symm
    rw [hassoc]
    rw [ih (pre ++ encodeEntryWithLen e e.descriptors.length) tail extra
        (fun x hx => hv x (by simp [hx]))]
    have hlen : (pre ++ encodeEntryWithLen e e.descriptors.length).length + sumSize es
        = pre.length + (6 + e.descriptors.length + sumSize es) := by
      rw [List.length_append, length_encodeEntryWithLen]
      omega
    rw [hlen]

/-- C2 counterexample: the claim requires that bumping ANY single
entry's descriptor length by 1 (outer loop length unchanged) makes the
parser fail with an overflow error, but when the bumped entry is not
the last one the loop can terminate successfully instead: with two
empty entries (loop length 12) and the FIRST entry's length field
bumped from 0 to 1, the loop mis-skips one byte into the second entry,
drops `left_length` to 5 < 6 and exits with success (0), not
`AVERROR_INVALIDDATA`. -/
theorem c2_counterexample :
    nit_stream_loop
        ⟨encodeEntryWithLen ⟨0, 0, []⟩ (0 + 1) ++ (encodeEntry ⟨0, 0, []⟩ ++ []), 0⟩
        (sumSize [⟨0, 0, []⟩, ⟨0, 0, []⟩])
      = (0, ⟨encodeEntryWithLen ⟨0, 0, []⟩ (0 + 1) ++ (encodeEntry ⟨0, 0, []⟩ ++ []), 56⟩, 5) ∧
    (0 : Int) ≠ AVERROR_INVALIDDATA := by
  constructor
  · decide
  · decide

/-- C2 amended: for every synthesized NIT TLV-stream loop whose
entries sum exactly to the loop length, `nit_stream_loop` succeeds and
consumes the loop exactly to its end with final remaining length 0
(strictly less than 6); and bumping the LAST entry's descriptor length
field by 1 (outer loop length unchanged) makes the loop fail with
`AVERROR_INVALIDDATA`.  (Bumping a non-last entry may instead succeed
silently, see the counterexample.) -/
theorem c2_nit_loop_accounting :
    (∀ es tail, (∀ e ∈ es, entryValid e) →
      nit_stream_loop ⟨encodeEntries es ++ tail, 0⟩ (sumSize es)
        = (0, ⟨encodeEntries es ++ tail, 8 * sumSize es⟩, 0)) ∧
    (∀ es e tail, (∀ x ∈ es, entryValid x) → entryValid e →
      e.descriptors.length + 1 < 1024 →
      nit_stream_loop
          ⟨encodeEntries es ++ (encodeEntryWithLen e (e.descriptors.length + 1) ++ tail), 0⟩
          (sumSize es + entrySize e)
        = (AVERROR_INVALIDDATA,
           ⟨encodeEntries es ++ (encodeEntryWithLen e (e.descriptors.length + 1) ++ tail),
            8 * sumSize es + 48⟩,
           entrySize e)) := by
  constructor
  · intro es tail hv
    have h := nit_stream_loop_entries es [] tail 0 hv
    simp only [List.nil_append, List.length_nil, Nat.mul_zero, Nat.add_zero, Nat.zero_add] at h
    rw [h, nit_stream_loop_exit _ 0 (by omega)]
  · intro es e tail hv hve hlt
    have h := nit_stream_loop_entries es [] (encodeEntryWithLen e (e.descriptors.length + 1) ++ tail)
        (entrySize e) hv
    simp only [List.nil_append, List.length_nil, Nat.mul_zero, Nat.add_zero, Nat.zero_add] at h
    rw [h]
    rw [nit_stream_loop_step _ _ (show 6 ≤ entrySize e by simp only [entrySize]; omega)]
    dsimp only
    have hr := readBits_entry_dlen (encodeEntries es) tail e (e.descriptors.length + 1) hlt
    rw [length_encodeEntries] at hr
    rw [hr, Nat.mod_eq_of_lt hlt]
    rw [if_pos (show entrySize e < 6 + (e.descriptors.length + 1) by
      simp only [entrySize]; omega)]

/-- C2 witness: the exact-sum success applied at a one-entry loop with
a two-byte descriptor range, and the bumped-last-entry failure applied
at a single entry with a one-byte descriptor range. -/
theorem c2_nit_loop_accounting_witness :
    nit_stream_loop ⟨encodeEntries [⟨1, 2, [9, 9]⟩] ++ [7], 0⟩ (sumSize [⟨1, 2, [9, 9]⟩])
      = (0, ⟨encodeEntries [⟨1, 2, [9, 9]⟩] ++ [7], 8 * sumSize [⟨1, 2, [9, 9]⟩]⟩, 0) ∧
    nit_stream_loop
        ⟨encodeEntries [] ++ (encodeEntryWithLen ⟨3, 4, [5]⟩ (1 + 1) ++ []), 0⟩
        (sumSize [] + entrySize ⟨3, 4, [5]⟩)
      = (AVERROR_INVALIDDATA,
         ⟨encodeEntries [] ++ (encodeEntryWithLen ⟨3, 4, [5]⟩ (1 + 1) ++ []),
          8 * sumSize [] + 48⟩,
         entrySize ⟨3, 4, [5]⟩) :=
  ⟨c2_nit_loop_accounting.1 [⟨1, 2, [9, 9]⟩] [7]
      (by
        intro x hx
        simp only [List.mem_singleton] at hx
        subst hx
        exact ⟨by norm_num, by norm_num, by norm_num⟩),
   c2_nit_loop_accounting.2 [] ⟨3, 4, [5]⟩ []
      (by intro x hx; cases hx)
      ⟨by norm_num, by norm_num, by norm_num⟩
      (by norm_num)⟩

theorem getD_replicate_zero (n i : Nat) : (List.replicate n (0:Nat)).getD i 0 = 0 := by
  rw [List.getD_eq_getElem?_getD, List.getElem?_replicate]
  split <;> rfl

theorem tlv_resync_loop_no_sync :
    ∀ fuel s, s.eof_reached = false →
      (∀ i, i < fuel → s.pos + i < s.data.length ∧ s.data.getD (s.pos + i) 0 ≠ 0x7F) →
      tlv_resync_loop fuel s = (AVERROR_INVALIDDATA, ⟨s.data, s.pos + fuel, false⟩) := by
  intro fuel
  induction fuel with
  | zero =>
    intro s he _
    cases s with
    | mk d p e =>
      simp only at he
      simp [tlv_resync_loop, he]
  | succ n ih =>
    intro s he hs
    have h0 := hs 0 (by omega)
    simp only [Nat.add_zero] at h0
    simp only [tlv_resync_loop, avio_r8, if_pos h0.1, avio_feof, he, Bool.false_eq_true,
      if_false]
    rw [if_neg h0.2]
    have ih' := ih ⟨s.data, s.pos + 1, false⟩ rfl (by
      intro i hi
      have hsi := hs (i + 1) (by omega)
      have e : s.pos + 1 + i = s.pos + (i + 1) := by omega
      simp only []
      rw [e]
      exact hsi)
    simp only [] at ih'
    rw [ih']
    have e : s.pos + 1 + n = s.pos + (n + 1) := by omega
    rw [e]

/-- C7: on a stream whose next 10,485,760 bytes exist and contain no
sync byte 0x7F, `tlv_resync` reads exactly 10,485,760 bytes — the
cursor advances by exactly the `resync_limit` ceiling — and then
returns `AVERROR_INVALIDDATA`; the scan loop is structurally bounded
by the same 10,485,760 fuel, so it performs at most that many
iterations. -/
theorem c7_resync_bound (s : AVIOContext)
    (he : s.eof_reached = false)
    (hlen : s.pos + 10 * 1024 * 1024 ≤ s.data.length)
    (hns : ∀ i, i < 10 * 1024 * 1024 → s.data.getD (s.pos + i) 0 ≠ 0x7F) :
    tlv_resync s = (AVERROR_INVALIDDATA, ⟨s.data, s.pos + 10 * 1024 * 1024, false⟩) := by
  unfold tlv_resync
  exact tlv_resync_loop_no_sync _ s he (fun i hi => ⟨by omega, hns i hi⟩)

/-- C7 witness: a 10,485,760-byte all-zero stream is scanned to its
end and rejected. -/
theorem c7_resync_bound_witness :
    tlv_resync ⟨List.replicate (10 * 1024 * 1024) 0, 0, false⟩
      = (AVERROR_INVALIDDATA,
         ⟨List.replicate (10 * 1024 * 1024) 0, 0 + 10 * 1024 * 1024, false⟩) :=
  c7_resync_bound ⟨List.replicate (10 * 1024 * 1024) 0, 0, false⟩ rfl
    (by rw [List.length_replicate])
    (fun i hi => by
      show (List.replicate (10 * 1024 * 1024) (0:Nat)).getD (0 + i) 0 ≠ 0x7F
      rw [Nat.zero_add, getD_replicate_zero]
      omega)


/-- C6: for every well-formed TLV packet `[0x7F, type, len_hi, len_lo]
++ payload` with a recognized type and `payload.length` equal to the
declared big-endian 16-bit length, one `tlv_read_packet` invocation
advances the stream position by exactly `4 + len` — whether the type
is skipped (0x01, 0x02, 0xFF) or dispatched to a sub-parser (0x03,
0xFE), and whatever the sub-parser returns — and leaves the stream
bytes unchanged. -/
theorem c6_framer_advance (s : AVIOContext) (t lh ll : Nat) (payload rest : List Nat)
    (hdrop : s.data.drop s.pos = 0x7F :: t :: lh :: ll :: (payload ++ rest))
    (hlen : payload.length = lh * 256 + ll)
    (ht : t = 0x01 ∨ t = 0x02 ∨ t = 0x03 ∨ t = 0xFE ∨ t = 0xFF) :
    (tlv_read_packet s).2.pos = s.pos + 4 + (lh * 256 + ll) ∧
    (tlv_read_packet s).2.data = s.data := by
  have hlen' : s.data.length = s.pos + 4 + payload.length + rest.length := by
    have h := congrArg List.length hdrop
    simp [List.length_drop] at h
    omega
  have hbytes : (s.data.drop s.pos).take 4 = [0x7F, t, lh, ll] := by
    rw [hdrop]
    rfl
  have hdrop2 : s.data.drop (s.pos + 4) = payload ++ rest := by
    rw [← List.drop_drop 4 s.pos s.data, hdrop]
    rfl
  have htake : (payload ++ rest).take (lh * 256 + ll) = payload := by
    rw [← hlen]
    exact List.take_left payload rest
  have hmin : min (s.pos + 4 + (lh * 256 + ll)) s.data.length = s.pos + 4 + (lh * 256 + ll) := by
    omega
  rcases ht with rfl | rfl | rfl | rfl | rfl
  · by_cases hpl : lh * 256 + ll = 0
    · simp [tlv_read_packet, avio_read, hbytes, hpl]
    · simp [tlv_read_packet, avio_read, avio_tell, avio_skip, hbytes, hpl, hmin]
      split <;> exact ⟨rfl, rfl⟩
  · by_cases hpl : lh * 256 + ll = 0
    · simp [tlv_read_packet, avio_read, hbytes, hpl]
    · simp [tlv_read_packet, avio_read, avio_tell, avio_skip, hbytes, hpl, hmin]
      split <;> exact ⟨rfl, rfl⟩
  · by_cases hpl : lh * 256 + ll = 0
    · simp [tlv_read_packet, avio_read, hbytes, hpl]
    · simp [tlv_read_packet, avio_read, hbytes, hdrop2, htake, hlen, hpl]
  · by_cases hpl : lh * 256 + ll = 0
    · simp [tlv_read_packet, avio_read, hbytes, hpl]
    · simp [tlv_read_packet, avio_read, hbytes, hdrop2, htake, hlen, hpl]
  · by_cases hpl : lh * 256 + ll = 0
    · simp [tlv_read_packet, avio_read, hbytes, hpl]
    · simp [tlv_read_packet, avio_read, avio_tell, avio_skip, hbytes, hpl, hmin]
      split <;> exact ⟨rfl, rfl⟩

/-- C6 witness: a null packet (type 0xFF) with a 2-byte payload
advances the cursor by exactly 6 bytes. -/
theorem c6_framer_advance_witness :
    (tlv_read_packet ⟨[0x7F, 0xFF, 0x00, 0x02, 0xAB, 0xCD], 0, false⟩).2.pos = 0 + 4 + (0 * 256 + 2) ∧
    (tlv_read_packet ⟨[0x7F, 0xFF, 0x00, 0x02, 0xAB, 0xCD], 0, false⟩).2.data
      = [0x7F, 0xFF, 0x00, 0x02, 0xAB, 0xCD] :=
  c6_framer_advance ⟨[0x7F, 0xFF, 0x00, 0x02, 0xAB, 0xCD], 0, false⟩ 0xFF 0 2 [0xAB, 0xCD] []
    (by decide) (by decide) (Or.inr (Or.inr (Or.inr (Or.inr rfl))))
theorem mem_amtReadsV4 (o i : Nat) (h : i ∈ amtReadsV4 o) : i < o + 9 := by
  simp [amtReadsV4, List.mem_append, List.mem_map, List.mem_range] at h
  rcases h with ⟨j, hj, rfl⟩ | rfl | ⟨j, hj, rfl⟩ | rfl <;> omega

theorem mem_amtReadsV6 (o i : Nat) (h : i ∈ amtReadsV6 o) : i < o + 34 := by
  simp [amtReadsV6, List.mem_append, List.mem_map, List.mem_range] at h
  rcases h with ⟨j, hj, rfl⟩ | rfl | ⟨j, hj, rfl⟩ | rfl <;> omega

theorem amt_service_loop_reads_bound (N : Nat) :
    ∀ count sl gb mrl, gb.index = 8 * (mrl - 1) → 1 ≤ mrl → sl + 3 ≤ N →
      ∀ i ∈ (amt_service_loop sl count gb mrl).2.2, i < N := by
  intro count
  induction count with
  | zero =>
    intro sl gb mrl _ _ _ i hi
    simp [amt_service_loop] at hi
  | succ k ih =>
    intro sl gb mrl hidx hm hsl i hi
    by_cases hc1 : sl < mrl + 4
    · simp [amt_service_loop, hc1] at hi
    · simp only [amt_service_loop, get_bits, skip_bits, get_bits_count] at hi
      rw [if_neg hc1] at hi
      set ip := readBits gb.buffer (gb.index + 16) 1 with hip
      set sll := readBits gb.buffer (gb.index + 16 + 1 + 5) 10 with hsll
      by_cases hc2 : sl < mrl + 4 + sll ∨ sll < (if ip ≠ 0 then 34 else 10)
      · rw [if_pos hc2] at hi
        simp at hi
      · rw [if_neg hc2] at hi
        simp only [List.mem_append] at hi
        have ho : (gb.index + 16 + 1 + 5 + 10) / 8 = mrl + 3 := by omega
        rw [ho] at hi
        rcases hi with hi | hi
        · by_cases hv : ip ≠ 0
          · rw [if_pos hv] at hi
            have hb := mem_amtReadsV6 (mrl + 3) i hi
            have h34 : 34 ≤ sll := by
              rcases not_or.mp hc2 with ⟨_, h⟩
              rw [if_pos hv] at h
              omega
            omega
          · rw [if_neg hv] at hi
            have hb := mem_amtReadsV4 (mrl + 3) i hi
            have h10 : 10 ≤ sll := by
              rcases not_or.mp hc2 with ⟨_, h⟩
              rw [if_neg hv] at h
              omega
            omega
        · exact ih sl ⟨gb.buffer, gb.index + 16 + 1 + 5 + 10 + sll * 8⟩ (mrl + 4 + sll)
            (by simp only []; omega) (by omega) hsl i hi

/-- C4: for every AMT service entry that passes both length checks
(the running minimum-required length including the entry's 4-byte
header and its `service_loop_length` stays within `section_length`,
and `service_loop_length` is at least 10 for ip_version 0 / 34 for
ip_version 1), every byte offset dereferenced by the raw
address-record decode lies strictly below `N` whenever
`section_length + 3 ≤ N` — in particular below the `pkt_data_size` of
the materialized payload buffer, since the signalling parser only
dispatches sections with `section_length ≤ pkt_data_size - 3`. -/
theorem c4_amt_reads_in_bounds (pkt : TLVSignallingPacket) (N : Nat)
    (hidx : pkt.gb.index = 64)
    (hsl : pkt.section_length + 3 ≤ N) :
    ∀ i ∈ (tlv_parse_amt_packet pkt).2.2, i < N := by
  intro i hi
  unfold tlv_parse_amt_packet at hi
  by_cases hc : pkt.section_syntax_indicator = 0 ∨ pkt.section_length < 11
  · rw [if_pos hc] at hi
    simp at hi
  · rw [if_neg hc] at hi
    simp only [get_bits, skip_bits] at hi
    exact amt_service_loop_reads_bound N _ pkt.section_length
      ⟨pkt.gb.buffer, pkt.gb.index + 10 + 6⟩ 11
      (by simp only []; omega) (by omega) (by omega) i hi

/-- C4 witness: a 28-byte signalling payload with one ipv4 service
entry (`section_length = 25 = 28 - 3`); the decode dereferences
offsets 14..22 (and re-reads 19), all strictly below 28. -/
theorem c4_amt_reads_in_bounds_witness :
    ((tlv_parse_amt_packet
        ⟨⟨List.replicate 8 0 ++ [0x00, 0x40, 0x00, 0x01, 0x00, 0x0A]
            ++ List.replicate 10 0xAB ++ List.replicate 4 0, 64⟩,
         0xFE, 1, 25, 0, 0, 1, 0, 0⟩).2.2).all (fun i => i < 28) = true :=
  List.all_eq_true.mpr (fun i hi => decide_eq_true
    (c4_amt_reads_in_bounds
      ⟨⟨List.replicate 8 0 ++ [0x00, 0x40, 0x00, 0x01, 0x00, 0x0A]
          ++ List.replicate 10 0xAB ++ List.replicate 4 0, 64⟩,
       0xFE, 1, 25, 0, 0, 1, 0, 0⟩ 28 rfl (by decide) i hi))
theorem tlv_resync_loop_progress :
    ∀ fuel s, s.pos ≤ s.data.length →
      (tlv_resync_loop fuel s).2.data = s.data ∧
      s.pos ≤ (tlv_resync_loop fuel s).2.pos ∧
      (tlv_resync_loop fuel s).2.pos ≤ s.data.length := by
  intro fuel
  induction fuel with
  | zero => intro s h; exact ⟨rfl, le_refl _, h⟩
  | succ n ih =>
    intro s h
    by_cases hp : s.pos < s.data.length
    · have hr : avio_r8 s = (s.data.getD s.pos 0, ⟨s.data, s.pos + 1, s.eof_reached⟩) := by
        unfold avio_r8
        rw [if_pos hp]
      simp only [tlv_resync_loop, hr, avio_seek_back1]
      split
      · refine ⟨rfl, ?_, ?_⟩ <;> dsimp only <;> omega
      · split
        · refine ⟨rfl, ?_, ?_⟩ <;> dsimp only <;> omega
        · have hih := ih ⟨s.data, s.pos + 1, s.eof_reached⟩ (by dsimp only; omega)
          refine ⟨hih.1, ?_, ?_⟩
          · have h2 := hih.2.1
            dsimp only at h2
            omega
          · have h3 := hih.2.2
            dsimp only at h3
            omega
    · have hr : avio_r8 s = (0, ⟨s.data, s.pos, true⟩) := by
        unfold avio_r8
        rw [if_neg hp]
      simp only [tlv_resync_loop, hr]
      rw [if_pos (show avio_feof (⟨s.data, s.pos, true⟩ : AVIOContext) = true from rfl)]
      exact ⟨rfl, le_refl _, h⟩

theorem tlv_read_packet_progress (s : AVIOContext) (h : s.pos ≤ s.data.length) :
    (tlv_read_packet s).2.data = s.data ∧
    (tlv_read_packet s).2.pos ≤ s.data.length ∧
    ((tlv_read_packet s).1 < 0 ∨ s.pos + 4 ≤ (tlv_read_packet s).2.pos) := by
  unfold tlv_read_packet
  simp only [avio_read, avio_tell, avio_skip, List.length_take, List.length_drop]
  split
  · exact ⟨rfl, by dsimp only; omega, Or.inl (by show AVERROR_EOF < 0; decide)⟩
  · split
    · exact ⟨rfl, by dsimp only; omega, Or.inl (by show AVERROR_INVALIDDATA < 0; decide)⟩
    · split
      · split
        · exact ⟨rfl, by dsimp only; omega, Or.inr (by dsimp only; omega)⟩
        · split
          · split
            · exact ⟨rfl, by dsimp only; omega, Or.inl (by show AVERROR_EOF < 0; decide)⟩
            · exact ⟨rfl, by dsimp only; omega, Or.inr (by dsimp only; omega)⟩
          · split
            · exact ⟨rfl, by dsimp only; omega, Or.inl (by show AVERROR_EOF < 0; decide)⟩
            · exact ⟨rfl, by dsimp only; omega, Or.inr (by dsimp only; omega)⟩
      · exact ⟨rfl, by dsimp only; omega, Or.inl (by show AVERROR_INVALIDDATA < 0; decide)⟩

/-- C10: the header-reading driver never returns success: every
resync/framing/parse error from inside the do-while loop is returned
immediately, and any non-negative iteration result makes the loop
repeat after consuming at least 4 more bytes, so with fuel covering
the stream (`length + 1 - pos`, each iteration consuming at least 4
bytes or returning) the result is always a negative error; the
fuel-exhaustion value `(0, s)` — the C function's unreachable trailing
`return 0` — is never produced. -/
theorem c10_read_header_never_succeeds :
    ∀ fuel s, s.pos ≤ s.data.length → s.data.length + 1 - s.pos ≤ fuel →
      (mmtp_tlv_read_header fuel s).1 < 0 := by
  intro fuel
  induction fuel with
  | zero =>
    intro s h hf
    omega
  | succ n ih =>
    intro s h hf
    show (read_header_loop (n + 1) s).1 < 0
    simp only [read_header_loop]
    have hres := tlv_resync_loop_progress (10 * 1024 * 1024) s h
    by_cases hr1 : (tlv_resync s).1 < 0
    · rw [if_pos hr1]
      exact hr1
    · rw [if_neg hr1]
      have hres' : (tlv_resync s).2.data = s.data ∧ s.pos ≤ (tlv_resync s).2.pos ∧
          (tlv_resync s).2.pos ≤ s.data.length := hres
      have e1 : (tlv_resync s).2.data.length = s.data.length := by rw [hres'.1]
      have hread := tlv_read_packet_progress (tlv_resync s).2 (by omega)
      by_cases hr2 : (tlv_read_packet (tlv_resync s).2).1 < 0
      · rw [if_pos hr2]
        exact hr2
      · rw [if_neg hr2]
        have e2 : (tlv_read_packet (tlv_resync s).2).2.data.length
            = (tlv_resync s).2.data.length := by rw [hread.1]
        have hadv : (tlv_resync s).2.pos + 4 ≤ (tlv_read_packet (tlv_resync s).2).2.pos := by
          rcases hread.2.2 with hlt | hle
          · exact absurd hlt hr2
          · exact hle
        exact ih (tlv_read_packet (tlv_resync s).2).2 (by omega) (by omega)

/-- C10 witness: on the empty stream with fuel 1 the driver returns a
negative error (end-of-stream from the resynchronizer). -/
theorem c10_read_header_never_succeeds_witness :
    (mmtp_tlv_read_header 1 ⟨[], 0, false⟩).1 < 0 :=
  c10_read_header_never_succeeds 1 ⟨[], 0, false⟩ (by decide) (by decide)

/-- C3 counterexample: the claim says the owning read loop continues
to the next packet after a sub-parser error, but `mmtp_tlv_read_header`
returns the error immediately.  On a stream holding a corrupt HCfB
packet (declared length 1 < 3, fully consumed at position 5) followed
by a further well-formed null packet, the header driver terminates
with `AVERROR_INVALIDDATA` at position 5, with the next packet (4 more
bytes) still unread. -/
theorem c3_counterexample :
    mmtp_tlv_read_header 10 ⟨[0x7F, 0x03, 0x00, 0x01, 0xAA, 0x7F, 0xFF, 0x00, 0x00], 0, false⟩
      = (AVERROR_INVALIDDATA,
         ⟨[0x7F, 0x03, 0x00, 0x01, 0xAA, 0x7F, 0xFF, 0x00, 0x00], 5, false⟩) ∧
    5 + 4 ≤ ([0x7F, 0x03, 0x00, 0x01, 0xAA, 0x7F, 0xFF, 0x00, 0x00] : List Nat).length := by
  constructor
  · decide
  · decide

/-- C3 amended: when the resynchronizer succeeds and the framer (via a
type-specific sub-parser) returns an error for one packet, that error
becomes the result of both owning drivers: `mmtp_tlv_read_header`
returns it immediately instead of continuing with the next packet, and
`mmtp_tlv_read_packet` returns it for that single read_packet call
(its caller decides whether demuxing continues). -/
theorem c3_error_propagation (s : AVIOContext) (n : Nat)
    (hres : 0 ≤ (tlv_resync s).1)
    (herr : (tlv_read_packet (tlv_resync s).2).1 < 0) :
    mmtp_tlv_read_header (n + 1) s = tlv_read_packet (tlv_resync s).2 ∧
    mmtp_tlv_read_packet s = tlv_read_packet (tlv_resync s).2 := by
  constructor
  · show read_header_loop (n + 1) s = _
    simp only [read_header_loop]
    rw [if_neg (by omega), if_pos herr]
  · simp only [mmtp_tlv_read_packet]
    rw [if_neg (by omega), if_pos herr]

/-- C3 amended witness: a lone corrupt HCfB packet makes both drivers
return the sub-parser's error. -/
theorem c3_error_propagation_witness :
    mmtp_tlv_read_header 1 ⟨[0x7F, 0x03, 0x00, 0x01, 0xAA], 0, false⟩
      = tlv_read_packet (tlv_resync ⟨[0x7F, 0x03, 0x00, 0x01, 0xAA], 0, false⟩).2 ∧
    mmtp_tlv_read_packet ⟨[0x7F, 0x03, 0x00, 0x01, 0xAA], 0, false⟩
      = tlv_read_packet (tlv_resync ⟨[0x7F, 0x03, 0x00, 0x01, 0xAA], 0, false⟩).2 :=
  c3_error_propagation ⟨[0x7F, 0x03, 0x00, 0x01, 0xAA], 0, false⟩ 0 (by decide) (by decide)
